import Mathlib

/-- A 160-bit identifier, stored as five big-endian 32-bit words
(`[5]uint32` in the source). -/
structure ID where
  w0 : Nat
  w1 : Nat
  w2 : Nat
  w3 : Nat
  w4 : Nat
deriving DecidableEq, Repr

/-- The five words of an ID, most significant first, as iterated by the
`for i := 0; i < 5; i++` loops of `util.go`. -/
def ID.words (a : ID) : List Nat :=
  [a.w0, a.w1, a.w2, a.w3, a.w4]

/-- Lexicographic strict comparison of word sequences: the loop shape
shared by `CloserNode` and `LargerNode` in `util.go` (compare word `i`;
return on the first inequality; an exhausted loop means `false`). -/
def ltlex : List Nat → List Nat → Bool
  | x :: xs, y :: ys =>
      if x < y then true
      else if y < x then false
      else ltlex xs ys
  | _, _ => false

/-- Lexicographic strict comparison of two five-word values. -/
def idLt (a b : ID) : Bool :=
  ltlex a.words b.words

/-- Embeds `RelativeDistance` (util.go): the word-wise XOR distance metric. -/
def RelativeDistance (nodeA : ID) (nodeB : ID) : ID :=
  ⟨nodeA.w0 ^^^ nodeB.w0, nodeA.w1 ^^^ nodeB.w1, nodeA.w2 ^^^ nodeB.w2,
   nodeA.w3 ^^^ nodeB.w3, nodeA.w4 ^^^ nodeB.w4⟩

/-- Embeds `CloserNode` (util.go): true iff `nodeA` is strictly closer to
`target` than `nodeB`, comparing the XOR distances lexicographically. -/
def CloserNode (nodeA : ID) (nodeB : ID) (target : ID) : Bool :=
  idLt (RelativeDistance nodeA target) (RelativeDistance nodeB target)

/-- Embeds `EquiDistantNode` (util.go): true iff `nodeA` and `nodeB` are at the
same XOR distance from `target`. -/
def EquiDistantNode (nodeA : ID) (nodeB : ID) (target : ID) : Bool :=
  RelativeDistance nodeA target == RelativeDistance nodeB target

/-- Embeds `LargerNode` (util.go): true iff `nodeA` is lexicographically larger
than `nodeB`. -/
def LargerNode (nodeA : ID) (nodeB : ID) : Bool :=
  idLt nodeB nodeA

/-- A 4-byte address (`[4]byte` in the source). -/
structure IP where
  b0 : Nat
  b1 : Nat
  b2 : Nat
  b3 : Nat
deriving DecidableEq, Repr

/-- Modelled from the spec: the source file declaring `Contact` is not
part of the snapshot (only its accessors `ID()`, `IP()` and the
constructor `NewContact` appear in the present files).  Spec 4.B: an
immutable pair of ID and address. -/
structure Contact where
  ip : IP
  id : ID
deriving DecidableEq, Repr

inductive Cmd where
  | PING
  | FIND_NODE
  | STORE_RECORD
  | FIND_RECORD
  | ENTER
deriving DecidableEq, Repr

/-- Modelled from the spec: the RPC frame (spec section 3), with the
field names used by the present source files (`findAccountSucc` is the
spec's `found_record_ok`). -/
structure RPC where
  id : ID
  cmd : Cmd
  response : Bool
  sender : Contact
  receiver : IP
  findTarget : ID
  foundNodes : List Contact
  findAccountSucc : Bool
deriving DecidableEq, Repr

/-- Embeds `KEYSPACE` (node.go): the number of buckets. -/
def KEYSPACE : Nat := 160

/-- Embeds `KBUCKETVOLUME` (node.go): K, number of contacts per bucket. -/
def KBUCKETVOLUME : Nat := 5

/-- Embeds `REPLICATION` (node.go): alpha. -/
def REPLICATION : Nat := 3

/-- Embeds `CONCURRENCY` (node.go). -/
def CONCURRENCY : Nat := 3

/-- The swap criterion of the bubble sort in `SortContactsByDistance`
(util.go): adjacent `nodeA`, `nodeB` (in that order) are swapped iff
`CloserNode(nodeB, nodeA, target)`, or they are equidistant from
`target` and `LargerNode(nodeA, nodeB)`. -/
def bubbleSwap (target : ID) (nodeA nodeB : Contact) : Bool :=
  CloserNode nodeB.id nodeA.id target ||
    (EquiDistantNode nodeA.id nodeB.id target && LargerNode nodeA.id nodeB.id)

/-- One inner pass (`for j := 0; j < len(*input)-1; j++`) of the bubble
sort, carrying the current element `c` forward through the rest of the
slice, swapping adjacent elements per `bubbleSwap`. -/
def passAux (target : ID) (c : Contact) : List Contact → List Contact
  | [] => [c]
  | b :: rest =>
      if bubbleSwap target c b then b :: passAux target c rest
      else c :: passAux target b rest

/-- One full inner pass of the bubble sort over the whole list. -/
def bubblePass (target : ID) : List Contact → List Contact
  | [] => []
  | c :: rest => passAux target c rest

/-- Embeds `n` repetitions of the inner pass (the outer
`for i := 1; i < len(*input); i++` loop runs `len-1` of them). -/
def bubblePasses (target : ID) : Nat → List Contact → List Contact
  | 0, l => l
  | n + 1, l => bubblePasses target n (bubblePass target l)

/-- Embeds `SortContactsByDistance` (util.go): unoptimised bubble sort of the
contact slice by distance to `target`, `len-1` full passes. -/
def SortContactsByDistance (input : List Contact) (target : ID) : List Contact :=
  bubblePasses target (input.length - 1) input

/-- One step of the `RemoveDuplicateContacts` loop (util.go): at counter
value `i+1` compare `set[i+1]` with `set[i]`; on equal IDs remove the
element at index `i`; then continue with counter `i`. -/
def removeDupStep : List Contact → Nat → List Contact
  | set, 0 => set
  | set, i + 1 =>
      match set[i+1]?, set[i]? with
      | some a, some b =>
          if a.id == b.id then removeDupStep (set.eraseIdx i) i
          else removeDupStep set i
      | _, _ => removeDupStep set i

/-- Embeds `RemoveDuplicateContacts` (util.go): the loop
`for i := len(*set)-1; i > 0; i--` removing `set[i-1]` whenever
`set[i].ID() == set[i-1].ID()`. -/
def RemoveDuplicateContacts (set : List Contact) : List Contact :=
  removeDupStep set (set.length - 1)

/-- Reference recursion: drop every contact that is immediately followed
by one with the same ID, so that the last element of each run of
equal-ID contacts is the one kept. -/
def dedupKeepLast : List Contact → List Contact
  | [] => []
  | [c] => [c]
  | a :: b :: rest =>
      if a.id == b.id then dedupKeepLast (b :: rest)
      else a :: dedupKeepLast (b :: rest)

/-- Pair every element of a list with its immediate successor
(`none` for the last element). -/
def pairWithNext : List Contact → List (Contact × Option Contact)
  | [] => []
  | [c] => [(c, none)]
  | a :: b :: rest => (a, some b) :: pairWithNext (b :: rest)

/-- A Go channel handle (`chan RPC` values are compared by identity). -/
abbrev Chan := Nat

/-- The pending table `table` (network file): a map from RPC id to the
waiter channel registered for it, modelled as an association list with
pairwise-distinct keys (a Go map cannot hold two entries per key). -/
abbrev Table := List (ID × Chan)

/-- Go map lookup `table.content[id]`. -/
def tableLookup (tbl : Table) (id : ID) : Option Chan :=
  (tbl.find? (fun p => p.1 == id)).map (·.2)

/-- Embeds `table.Add` (network file): error when the id is present (the Go
code then also returns a fresh dummy channel, which the caller
discards); otherwise insert a fresh channel under the id and return it.
The result is (returned channel, error, table afterwards). -/
def tableAdd (tbl : Table) (id : ID) (fresh : Chan) :
    Chan × Option String × Table :=
  match tableLookup tbl id with
  | some _ => (fresh, some "RPC id in use", tbl)
  | none => (fresh, none, (id, fresh) :: tbl)

/-- Embeds `table.RetrieveChan` (network file): return the matching channel and
delete the entry, or an error when there is no match. -/
def tableRetrieveChan (tbl : Table) (id : ID) : Option Chan × Table :=
  match tableLookup tbl id with
  | none => (none, tbl)
  | some ch => (some ch, tbl.eraseP (fun p => p.1 == id))

/-- Embeds `table.DropChan` (network file): delete the entry with the id. -/
def tableDropChan (tbl : Table) (id : ID) : Table :=
  tbl.eraseP (fun p => p.1 == id)

/-- Outcome of `Network.Send` (network file).  The Go function either
returns a frame with a nil error, or blocks forever on the waiter
channel (`res := <-respChan` with no timeout: the `select`/`TIMEOUT`
path is commented out, and no code path returns a non-nil error). -/
inductive SendResult where
  | done (rpc : RPC)
  | blocked
deriving DecidableEq, Repr

/-- Embeds `Network.Send` (network file).  `freshId` stands for the
`RandomID()` roll, `freshChan` for the channel `Add` would create, and
`env` for what the rest of the system will ever post on a given waiter
channel (`none` = nothing is ever posted, so the receive blocks
forever).  On a response frame: emit and return it.  On a request:
overwrite the id, call `Add` and discard its error, emit, then receive
from the waiter channel.  Returns the table afterwards, the emitted
frame (if any), and the outcome. -/
def networkSend (tbl : Table) (rpc : RPC) (freshId : ID) (freshChan : Chan)
    (env : Chan → Option RPC) : Table × Option RPC × SendResult :=
  if rpc.response then (tbl, some rpc, .done rpc)
  else
    let rpc' : RPC := { rpc with id := freshId }
    let r := tableAdd tbl freshId freshChan
    match env r.1 with
    | some res => (r.2.2, some rpc', .done res)
    | none => (r.2.2, some rpc', .blocked)

/-- What `Network.route` (network file) does with one inbound frame. -/
inductive RouteAction where
  | delivered (ch : Chan) (rpc : RPC)
  | droppedNoMatch
  | toHandler (rpc : RPC)
deriving DecidableEq, Repr

/-- Embeds `Network.route` (network file): a response frame is matched against
the pending table (`RetrieveChan`, which deletes the entry; the
subsequent `DropChan` is a no-op) and posted to its waiter; with no
matching id it is logged and discarded.  A request goes to the
handler. -/
def networkRoute (tbl : Table) (rpc : RPC) : Table × RouteAction :=
  if rpc.response then
    match tableRetrieveChan tbl rpc.id with
    | (none, tbl') => (tbl', .droppedNoMatch)
    | (some ch, tbl') => (tableDropChan tbl' rpc.id, .delivered ch rpc)
  else (tbl, .toHandler rpc)

/-- The candidate-processing block of one `findNodeLoop` iteration
(protocol file): sort the appended replies by distance to the target,
remove duplicates, then `if len(contactList) > CONCURRENCY`
truncate with `contactList[:REPLICATION]`. -/
def processContacts (contactList : List Contact) (target : ID) : List Contact :=
  let sorted := RemoveDuplicateContacts (SortContactsByDistance contactList target)
  if sorted.length > CONCURRENCY then sorted.take REPLICATION else sorted

/-- Whether one `findNodeLoop` iteration returns or loops again. -/
inductive LoopDecision where
  | terminate (result : List Contact)
  | again (next : List Contact)
deriving DecidableEq, Repr

/-- The decision logic at the end of one `findNodeLoop` iteration
(protocol file): `contactList` is the processed merge of this round's
replies.  If both lists are non-empty, return `contactList` unless its
head is strictly closer to the target than the head of
`prevContactList`; if `contactList` is empty, return `prevContactList`;
otherwise run another iteration with `prevContactList := contactList`. -/
def findNodeStep (prevContactList : List Contact) (replies : List Contact)
    (target : ID) : LoopDecision :=
  match (processContacts replies target).head?, prevContactList.head? with
  | some c, some p =>
      if CloserNode c.id p.id target then .again (processContacts replies target)
      else .terminate (processContacts replies target)
  | none, _ => .terminate prevContactList
  | some _, none => .again (processContacts replies target)

/-- The values `findAccountQuery` (protocol file) posts on `respChan`
for one queried node: on a successful `Send` it posts the reply's
`findAccountSucc` and then — the `return` is missing — unconditionally
posts `false`; on a `Send` error it posts only the unconditional
`false`.  `response` is the reply (`none` = `Send` returned an
error). -/
def findAccountQueryPosts (response : Option RPC) : List Bool :=
  match response with
  | some res => [res.findAccountSucc, false]
  | none => [false]

/-- The counting loop of `FindAccount` (protocol file):
`for range len(closeNodes)` do `_, ok := <-respChan`; the received
boolean is discarded, and `ok` — the channel-open flag, true whenever a
value arrives on the never-closed channel — is what is counted.  `n` is
the number of receives, `posts` the stream of values the queries put on
the channel (a receive from an exhausted stream would block forever;
modelled as counting nothing further). -/
def countOkReceives : Nat → List Bool → Nat
  | 0, _ => 0
  | n + 1, _ :: rest => countOkReceives n rest + 1
  | _ + 1, [] => 0

/-- Embeds `FindAccount` (protocol file), after `FindNode` has produced
`closeNodes`: query every close node synchronously, then count the
receives as above, and return `closeNodes` with a nil error iff the
count equals `REPLICATION`.  `responses` gives, per queried node in
order, the reply `Send` produced (`none` = error).  The result is
`none` when the function never returns: `respChan` is buffered with
capacity `REPLICATION` and nothing drains it until every query call has
returned, so as soon as the queries post more than `REPLICATION` values
in total, a `respChan <- ...` send blocks forever.  Otherwise
`some (closeNodes, ok)` where `ok = true` models a nil error. -/
def FindAccount (closeNodes : List Contact) (responses : List (Option RPC)) :
    Option (List Contact × Bool) :=
  let posts := (responses.map findAccountQueryPosts).flatten
  if posts.length > REPLICATION then none
  else some (closeNodes, countOkReceives closeNodes.length posts == REPLICATION)

/-- Embeds `RandU32` (util.go): pseudo-random value in `[min, max)` — an error
when `min >= max`.  `rand` models the `rand.Uint32()` draw. -/
def RandU32 (min max rand : Nat) : Nat × Option String :=
  if min ≥ max then (0, some "invalid range")
  else (rand % (max - min) + min, none)

/-- Embeds `Simnet.randomNode` (simnet.go): draw an index with
`RandU32(0, len(nodes))`, discarding the error, and return
`nodes[index]` (`none` models the Go panic on an out-of-range index,
possible only for an empty registry). -/
def randomNode (nodes : List Contact) (rand : Nat) : Option Contact :=
  let index := (RandU32 0 nodes.length rand).1
  nodes[index]?

/-- Outcome of `Simnet.Route` (simnet.go). -/
inductive RouteResult where
  | dropped
  | delivered (ch : Chan) (rpc : RPC)
  | panicked
deriving DecidableEq, Repr

/-- The mailbox table `chanTable.content` (simnet.go). -/
abbrev MailboxTable := List (IP × Chan)

/-- Go map lookup `simnet.chanTable.content[rpc.receiver]`. -/
def mailboxLookup (mailboxes : MailboxTable) (ip : IP) : Option Chan :=
  (mailboxes.find? (fun p => p.1 == ip)).map (·.2)

/-- Embeds `Simnet.Route` (simnet.go): look up the receiver's mailbox and drop
the frame if there is none; on an `ENTER` command replace `foundNodes`
with two `randomNode` samples from the registry and set
`response = true`; then drop the frame if `DropRoll` fires, else deliver
it to the mailbox.  `r1`, `r2` model the two index draws, `dropRoll` the
outcome of `DropRoll`. -/
def simnetRoute (mailboxes : MailboxTable) (nodes : List Contact)
    (r1 r2 : Nat) (dropRoll : Bool) (rpc : RPC) : RouteResult :=
  match mailboxLookup mailboxes rpc.receiver with
  | none => .dropped
  | some ch =>
      let rewritten : Option RPC :=
        if rpc.cmd == Cmd.ENTER then
          match randomNode nodes r1, randomNode nodes r2 with
          | some n1, some n2 =>
              some { rpc with foundNodes := [n1, n2], response := true }
          | _, _ => none
        else some rpc
      match rewritten with
      | none => .panicked
      | some rpc' => if dropRoll then .dropped else .delivered ch rpc'

/-- One right-fold step of the reference dedup: compare an element with
the head of the already-processed suffix. -/
def dedupStep (c : Contact) (acc : List Contact) : List Contact :=
  match acc with
  | [] => [c]
  | d :: ds => if c.id == d.id then d :: ds else c :: d :: ds

/-- The selection rule of the dedup expressed positionally: keep an
element iff it is not immediately followed by an element with the same
ID (hence in every run of equal IDs only its last element is kept). -/
def keepIfNextDiffers (p : Contact × Option Contact) : Option Contact :=
  match p.2 with
  | none => some p.1
  | some d => if p.1.id == d.id then none else some p.1

/-- All-zero target. -/
def target0 : ID := ID.mk 0 0 0 0 0

/-- A contact at XOR distance 1 from `target0`. -/
def cNear : Contact := Contact.mk (IP.mk 1 1 1 1) (ID.mk 0 0 0 0 1)

/-- A contact at XOR distance 5 from `target0`. -/
def cFar : Contact := Contact.mk (IP.mk 2 2 2 2) (ID.mk 0 0 0 0 5)

/-- A request frame (`response = false`) addressed to `cFar`. -/
def reqFrame : RPC :=
  RPC.mk (ID.mk 0 0 0 0 0) Cmd.PING false cNear (IP.mk 2 2 2 2) target0 [] false

/-- A response frame reporting `findAccountSucc = false`. -/
def replyNotHeld : RPC :=
  RPC.mk (ID.mk 1 0 0 0 0) Cmd.FIND_RECORD true cFar (IP.mk 1 1 1 1)
    target0 [] false

/-- A response frame reporting `findAccountSucc = true`. -/
def replyHeld : RPC :=
  RPC.mk (ID.mk 2 0 0 0 0) Cmd.FIND_RECORD true cFar (IP.mk 1 1 1 1)
    target0 [] true

/-- An `ENTER` request frame addressed to mailbox `⟨2,2,2,2⟩`. -/
def reqEnter : RPC :=
  RPC.mk (ID.mk 3 0 0 0 0) Cmd.ENTER false cNear (IP.mk 2 2 2 2) target0
    [] false

/-! ## Theorems -/

theorem ltlex_irrefl : ∀ xs : List Nat, ltlex xs xs = false
  | [] => rfl
  | x :: xs => by
      simp only [ltlex, Nat.lt_irrefl, if_false]
      exact ltlex_irrefl xs

theorem ltlex_asymm : ∀ {xs ys : List Nat}, ltlex xs ys = true →
    ltlex ys xs = false
  | x :: xs, y :: ys, h => by
      simp only [ltlex] at h ⊢
      split_ifs at h ⊢ with h1 h2 <;> try omega
      · rfl
      · exact ltlex_asymm h

theorem ltlex_trans : ∀ {xs ys zs : List Nat}, ltlex xs ys = true →
    ltlex ys zs = true → ltlex xs zs = true
  | x :: xs, y :: ys, z :: zs, h1, h2 => by
      simp only [ltlex] at h1 h2 ⊢
      split_ifs at h1 h2 ⊢ with ha hb hc hd he hf
      all_goals first
        | rfl
        | omega
        | (exfalso; omega)
        | exact ltlex_trans h1 h2

theorem ltlex_antisymm : ∀ {xs ys : List Nat}, xs.length = ys.length →
    ltlex xs ys = false → ltlex ys xs = false → xs = ys
  | [], [], _, _, _ => rfl
  | x :: xs, y :: ys, hl, h1, h2 => by
      simp only [ltlex] at h1 h2
      split_ifs at h1 h2 with ha hb <;> try omega
      have hxy : x = y := by omega
      have : xs = ys :=
        ltlex_antisymm (by simpa using hl) h1 h2
      rw [hxy, this]

/-- Not-strictly-less is transitive for equal-length word sequences. -/
theorem ltlex_nle_trans : ∀ {xs ys zs : List Nat}, xs.length = ys.length →
    ys.length = zs.length → ltlex ys xs = false → ltlex zs ys = false →
    ltlex zs xs = false
  | [], [], [], _, _, _, _ => rfl
  | x :: xs, y :: ys, z :: zs, hl1, hl2, h1, h2 => by
      simp only [ltlex] at h1 h2 ⊢
      split_ifs at h1 h2 ⊢ with ha hb hc hd he hf
      all_goals first
        | rfl
        | omega
        | (exfalso; omega)
        | exact ltlex_nle_trans (by simpa using hl1) (by simpa using hl2) h1 h2

theorem words_length_eq (a b : ID) : a.words.length = b.words.length := rfl

theorem words_inj {a b : ID} (h : a.words = b.words) : a = b := by
  cases a; cases b; simpa [ID.words] using h

theorem idLt_irrefl (a : ID) : idLt a a = false := ltlex_irrefl a.words

theorem idLt_asymm {a b : ID} (h : idLt a b = true) : idLt b a = false :=
  ltlex_asymm h

theorem idLt_trans {a b c : ID} (h1 : idLt a b = true)
    (h2 : idLt b c = true) : idLt a c = true :=
  ltlex_trans h1 h2

theorem idLt_antisymm {a b : ID} (h1 : idLt a b = false)
    (h2 : idLt b a = false) : a = b :=
  words_inj (ltlex_antisymm (words_length_eq a b) h1 h2)

/-- Not-strictly-less is transitive. -/
theorem idLt_nle_trans {a b c : ID} (h1 : idLt b a = false)
    (h2 : idLt c b = false) : idLt c a = false :=
  ltlex_nle_trans (words_length_eq a b) (words_length_eq c b).symm h1 h2

/-- XOR distance to a fixed target is injective on IDs. -/
theorem relativeDistance_inj {a b t : ID}
    (h : RelativeDistance a t = RelativeDistance b t) : a = b := by
  have h0 := congrArg ID.w0 h
  have h1 := congrArg ID.w1 h
  have h2 := congrArg ID.w2 h
  have h3 := congrArg ID.w3 h
  have h4 := congrArg ID.w4 h
  simp only [RelativeDistance] at h0 h1 h2 h3 h4
  cases a; cases b
  simp only [ID.mk.injEq] at h0 h1 h2 h3 h4 ⊢
  exact ⟨Nat.xor_left_injective h0, Nat.xor_left_injective h1,
    Nat.xor_left_injective h2, Nat.xor_left_injective h3,
    Nat.xor_left_injective h4⟩

/-- Since XOR distance to a fixed target is injective, the equidistant
tie branch of the sort never fires, and the swap criterion collapses to
the strict distance comparison. -/
theorem bubbleSwap_eq (t : ID) (a b : Contact) :
    bubbleSwap t a b =
      idLt (RelativeDistance b.id t) (RelativeDistance a.id t) := by
  unfold bubbleSwap CloserNode EquiDistantNode LargerNode
  rcases h : (RelativeDistance a.id t == RelativeDistance b.id t) with _ | _
  · simp
  · have hid : a.id = b.id := relativeDistance_inj (by simpa using h)
    simp [hid, idLt_irrefl]

/-- The no-swap relation between adjacent contacts is transitive. -/
theorem noSwap_trans {t : ID} {a b c : Contact}
    (h1 : bubbleSwap t a b = false) (h2 : bubbleSwap t b c = false) :
    bubbleSwap t a c = false := by
  rw [bubbleSwap_eq] at h1 h2 ⊢
  exact idLt_nle_trans h1 h2

theorem noSwap_refl (t : ID) (a : Contact) : bubbleSwap t a a = false := by
  rw [bubbleSwap_eq]; exact idLt_irrefl _

/-- Strict-then-nonstrict chaining for the swap criterion. -/
theorem noSwap_of_swap_of_noSwap {t : ID} {b c m : Contact}
    (h1 : bubbleSwap t c b = true) (h2 : bubbleSwap t c m = false) :
    bubbleSwap t b m = false := by
  rw [bubbleSwap_eq] at h1 h2 ⊢
  rcases Bool.eq_false_or_eq_true
      (idLt (RelativeDistance m.id t) (RelativeDistance b.id t)) with h | h
  · exact absurd (idLt_trans h h1) (by simp [h2])
  · exact h

theorem passAux_perm (t : ID) : ∀ (l : List Contact) (c : Contact),
    (passAux t c l).Perm (c :: l)
  | [], _ => List.Perm.refl _
  | b :: rest, c => by
      unfold passAux
      split
      · exact ((passAux_perm t rest c).cons b).trans (List.Perm.swap c b rest)
      · exact (passAux_perm t rest b).cons c

theorem bubblePass_perm (t : ID) (l : List Contact) :
    (bubblePass t l).Perm l := by
  cases l with
  | nil => exact List.Perm.refl _
  | cons c rest => exact passAux_perm t rest c

theorem bubblePasses_perm (t : ID) : ∀ (n : Nat) (l : List Contact),
    (bubblePasses t n l).Perm l
  | 0, _ => List.Perm.refl _
  | n + 1, l =>
      (bubblePasses_perm t n (bubblePass t l)).trans (bubblePass_perm t l)

/-- One inner pass deposits at its end an element that no element of the
input would swap with. -/
theorem passAux_max (t : ID) : ∀ (l : List Contact) (c : Contact),
    ∃ init m, passAux t c l = init ++ [m] ∧ m ∈ c :: l ∧
      ∀ x ∈ c :: l, bubbleSwap t x m = false
  | [], c =>
      ⟨[], c, rfl, List.mem_singleton.mpr rfl, by
        intro x hx
        rw [List.mem_singleton] at hx
        rw [hx]
        exact noSwap_refl t c⟩
  | b :: rest, c => by
      unfold passAux
      rcases hs : bubbleSwap t c b with _ | _
      · simp only [Bool.false_eq_true, if_false]
        obtain ⟨init, m, heq, hmem, hall⟩ := passAux_max t rest b
        refine ⟨c :: init, m, by rw [heq]; simp, ?_, ?_⟩
        · rcases List.mem_cons.mp hmem with h | h
          · exact List.mem_cons_of_mem _ (h ▸ List.mem_cons_self _ _)
          · exact List.mem_cons_of_mem _ (List.mem_cons_of_mem _ h)
        · intro x hx
          rcases List.mem_cons.mp hx with h | h
          · subst h
            have hcb : bubbleSwap t x b = false := hs
            have hbm : bubbleSwap t b m = false := hall b (List.mem_cons_self _ _)
            exact noSwap_trans hcb hbm
          · exact hall x h
      · simp only [if_true]
        obtain ⟨init, m, heq, hmem, hall⟩ := passAux_max t rest c
        refine ⟨b :: init, m, by rw [heq]; simp, ?_, ?_⟩
        · rcases List.mem_cons.mp hmem with h | h
          · exact h ▸ List.mem_cons_self _ _
          · exact List.mem_cons_of_mem _ (List.mem_cons_of_mem _ h)
        · intro x hx
          rcases List.mem_cons.mp hx with h | h
          · subst h
            exact hall x (List.mem_cons_self _ _)
          · rcases List.mem_cons.mp h with h' | h'
            · subst h'
              have hcm : bubbleSwap t c m = false := hall c (List.mem_cons_self _ _)
              exact noSwap_of_swap_of_noSwap hs hcm
            · exact hall x (List.mem_cons_of_mem _ h')

/-- A trailing element that nothing would swap with stays at the end of
an inner pass. -/
theorem passAux_append_max (t : ID) (m : Contact) :
    ∀ (l : List Contact) (c : Contact),
      (∀ x ∈ c :: l, bubbleSwap t x m = false) →
      passAux t c (l ++ [m]) = passAux t c l ++ [m]
  | [], c, h => by
      have hcm : bubbleSwap t c m = false := h c (List.mem_cons_self _ _)
      simp only [List.nil_append, passAux, hcm, Bool.false_eq_true, if_false]
      rfl
  | b :: rest, c, h => by
      simp only [List.cons_append, passAux, List.append_eq]
      rcases hs : bubbleSwap t c b with _ | _
      · simp only [Bool.false_eq_true, if_false]
        rw [passAux_append_max t m rest b fun x hx =>
          h x (List.mem_cons_of_mem _ hx)]
        simp
      · simp only [if_true]
        rw [passAux_append_max t m rest c fun x hx => by
          rcases List.mem_cons.mp hx with h' | h'
          · exact h' ▸ h c (List.mem_cons_self _ _)
          · exact h x (List.mem_cons_of_mem _ (List.mem_cons_of_mem _ h'))]
        simp

theorem bubblePass_append_max (t : ID) (m : Contact) (l : List Contact)
    (h : ∀ x ∈ l, bubbleSwap t x m = false) :
    bubblePass t (l ++ [m]) = bubblePass t l ++ [m] := by
  cases l with
  | nil =>
      simp [bubblePass, passAux]
  | cons c rest =>
      simp only [List.cons_append, bubblePass]
      exact passAux_append_max t m rest c (by simpa using h)

theorem bubblePasses_append_max (t : ID) (m : Contact) :
    ∀ (n : Nat) (l : List Contact),
      (∀ x ∈ l, bubbleSwap t x m = false) →
      bubblePasses t n (l ++ [m]) = bubblePasses t n l ++ [m]
  | 0, _, _ => rfl
  | n + 1, l, h => by
      simp only [bubblePasses]
      rw [bubblePass_append_max t m l h]
      exact bubblePasses_append_max t m n (bubblePass t l) fun x hx =>
        h x ((bubblePass_perm t l).mem_iff.mp hx)

/-- After `n` passes a list of length at most `n + 1` has no adjacent
pair the sort would still swap. -/
theorem bubblePasses_sorted (t : ID) :
    ∀ (n : Nat) (l : List Contact), l.length ≤ n + 1 →
      List.Chain' (fun a b => bubbleSwap t a b = false) (bubblePasses t n l)
  | 0, l, hl => by
      match l, hl with
      | [], _ => exact List.chain'_nil
      | [a], _ => exact List.chain'_singleton a
  | n + 1, l, hl => by
      cases l with
      | nil =>
          have : bubblePasses t (n + 1) ([] : List Contact) = [] :=
            (bubblePasses_perm t (n + 1) []).eq_nil
          rw [this]
          exact List.chain'_nil
      | cons c rest =>
          have hpass : bubblePasses t (n + 1) (c :: rest) =
              bubblePasses t n (passAux t c rest) := rfl
          obtain ⟨init, m, heq, _hmem, hall⟩ := passAux_max t rest c
          have hinit : ∀ x ∈ init, bubbleSwap t x m = false := by
            intro x hx
            refine hall x ?_
            have : x ∈ init ++ [m] := List.mem_append_left _ hx
            rw [← heq] at this
            exact (passAux_perm t rest c).mem_iff.mp this
          have hlen : init.length ≤ n + 1 := by
            have h1 : (passAux t c rest).length = rest.length + 1 :=
              (passAux_perm t rest c).length_eq
            have h2 : (init ++ [m]).length = rest.length + 1 := by
              rw [← heq]; exact h1
            simp only [List.length_append, List.length_singleton] at h2
            simp only [List.length_cons] at hl
            omega
          rw [hpass, heq, bubblePasses_append_max t m n init hinit]
          rw [List.chain'_append]
          refine ⟨bubblePasses_sorted t n init hlen, List.chain'_singleton m, ?_⟩
          intro x hx y hy
          simp only [List.head?_cons, Option.mem_def, Option.some.injEq] at hy
          subst hy
          refine hall x ?_
          have hx' : x ∈ bubblePasses t n init :=
            List.mem_of_mem_getLast? hx
          have hx'' : x ∈ init := (bubblePasses_perm t n init).mem_iff.mp hx'
          have : x ∈ init ++ [m] := List.mem_append_left _ hx''
          rw [← heq] at this
          exact (passAux_perm t rest c).mem_iff.mp this

theorem sortContacts_perm (l : List Contact) (t : ID) :
    (SortContactsByDistance l t).Perm l :=
  bubblePasses_perm t (l.length - 1) l

theorem sortContacts_chain' (l : List Contact) (t : ID) :
    List.Chain' (fun a b => bubbleSwap t a b = false)
      (SortContactsByDistance l t) :=
  bubblePasses_sorted t (l.length - 1) l (by omega)

theorem equidistant_no_larger {t : ID} {a b : Contact}
    (h : EquiDistantNode a.id b.id t = true) :
    LargerNode b.id a.id = false := by
  have hid : a.id = b.id := relativeDistance_inj (by simpa [EquiDistantNode] using h)
  unfold LargerNode
  rw [hid]
  exact idLt_irrefl _

/-- Claim C5: for every list of contacts and every target,
`SortContactsByDistance` produces a permutation of the input ordered by
ascending XOR distance to the target, and among equidistant contacts it
never places a larger ID behind a smaller one (equidistant contacts
necessarily share their ID, so this tie rule is satisfied trivially). -/
theorem c5_sort_orders_by_distance (l : List Contact) (t : ID) :
    (SortContactsByDistance l t).Perm l ∧
      List.Pairwise (fun a b =>
        CloserNode b.id a.id t = false ∧
        (EquiDistantNode a.id b.id t = true → LargerNode b.id a.id = false))
        (SortContactsByDistance l t) := by
  refine ⟨sortContacts_perm l t, ?_⟩
  have hchain := sortContacts_chain' l t
  letI : IsTrans Contact (fun a b => bubbleSwap t a b = false) :=
    ⟨fun _ _ _ => noSwap_trans⟩
  have hpw := List.chain'_iff_pairwise.mp hchain
  refine hpw.imp ?_
  intro a b hab
  refine ⟨?_, equidistant_no_larger⟩
  rw [show CloserNode b.id a.id t =
    idLt (RelativeDistance b.id t) (RelativeDistance a.id t) from rfl]
  rw [← bubbleSwap_eq]
  exact hab

theorem getElem?_append_self (ps l2 : List Contact) :
    (ps ++ l2)[ps.length]? = l2[0]? := by
  induction ps with
  | nil => simp
  | cons p ps ih => simpa using ih

theorem getElem?_append_self_succ (ps l2 : List Contact) :
    (ps ++ l2)[ps.length + 1]? = l2[1]? := by
  induction ps with
  | nil => simp
  | cons p ps ih => simpa using ih

theorem eraseIdx_append_self (ps : List Contact) (x : Contact)
    (suf : List Contact) :
    (ps ++ x :: suf).eraseIdx ps.length = ps ++ suf := by
  induction ps with
  | nil => simp [List.eraseIdx]
  | cons p ps ih => simpa [List.eraseIdx] using ih

/-- The `RemoveDuplicateContacts` loop over `pre ++ suf` with counter
`pre.length` folds `dedupStep` over `pre` from the right, starting from
the already-processed suffix `suf`. -/
theorem removeDupStep_spec (pre : List Contact) :
    ∀ suf : List Contact, suf ≠ [] →
      removeDupStep (pre ++ suf) pre.length = pre.foldr dedupStep suf := by
  induction pre using List.reverseRecOn with
  | nil =>
      intro suf _
      simp [removeDupStep]
  | append_singleton ps x ih =>
      intro suf hsuf
      obtain ⟨h, hs, rfl⟩ := List.exists_cons_of_ne_nil hsuf
      have hre : (ps ++ [x]) ++ h :: hs = ps ++ x :: h :: hs := by simp
      have hlen : (ps ++ [x]).length = ps.length + 1 := by simp
      rw [hre, hlen]
      have hget1 : (ps ++ x :: h :: hs)[ps.length + 1]? = some h := by
        rw [getElem?_append_self_succ]; simp
      have hget2 : (ps ++ x :: h :: hs)[ps.length]? = some x := by
        rw [getElem?_append_self]; rfl
      rw [List.foldr_append]
      simp only [List.foldr_cons, List.foldr_nil]
      simp only [removeDupStep, hget1, hget2]
      rcases hid : h.id == x.id with _ | _
      · have hne : (x.id == h.id) = false := by
          rcases hxh : x.id == h.id with _ | _
          · rfl
          · rw [beq_iff_eq] at hxh
            rw [hxh] at hid
            simp at hid
        simp only [hid, Bool.false_eq_true, if_false]
        rw [ih (x :: h :: hs) (List.cons_ne_nil _ _)]
        simp [dedupStep, hne]
      · have heq : (x.id == h.id) = true := by
          rw [beq_iff_eq] at hid ⊢
          exact hid.symm
        simp only [hid, if_true]
        rw [eraseIdx_append_self]
        rw [ih (h :: hs) (List.cons_ne_nil _ _)]
        simp [dedupStep, heq]

theorem dedupKeepLast_head_id : ∀ (l : List Contact) (a : Contact),
    ∃ d ds, dedupKeepLast (a :: l) = d :: ds ∧ d.id = a.id
  | [], a => ⟨a, [], rfl, rfl⟩
  | b :: t, a => by
      obtain ⟨d, ds, heq, hid⟩ := dedupKeepLast_head_id t b
      rcases hab : a.id == b.id with _ | _
      · exact ⟨a, dedupKeepLast (b :: t), by
          simp only [dedupKeepLast, hab, Bool.false_eq_true, if_false], rfl⟩
      · refine ⟨d, ds, ?_, ?_⟩
        · simp only [dedupKeepLast, hab, if_true]
          exact heq
        · rw [hid]
          rw [beq_iff_eq] at hab
          exact hab.symm

theorem dedupKeepLast_foldr : ∀ l : List Contact,
    dedupKeepLast l = l.foldr dedupStep [] := by
  intro l
  induction l with
  | nil => rfl
  | cons a l ih =>
      rw [List.foldr_cons, ← ih]
      cases l with
      | nil => rfl
      | cons b t =>
          obtain ⟨d, ds, heq, hid⟩ := dedupKeepLast_head_id t b
          rcases hab : a.id == b.id with _ | _ <;>
            simp only [dedupKeepLast, hab, Bool.false_eq_true, if_false,
              if_true, heq, dedupStep, hid]

theorem removeDuplicates_eq_dedupKeepLast (l : List Contact) :
    RemoveDuplicateContacts l = dedupKeepLast l := by
  rcases List.eq_nil_or_concat l with rfl | ⟨ps, m, rfl⟩
  · rfl
  · rw [List.concat_eq_append]
    unfold RemoveDuplicateContacts
    have hlen : (ps ++ [m]).length - 1 = ps.length := by simp
    rw [hlen]
    rw [removeDupStep_spec ps [m] (List.cons_ne_nil _ _)]
    rw [dedupKeepLast_foldr, List.foldr_append]
    rfl

theorem dedupKeepLast_chain' : ∀ l : List Contact,
    List.Chain' (fun a b => a.id ≠ b.id) (dedupKeepLast l)
  | [] => List.chain'_nil
  | [c] => List.chain'_singleton c
  | a :: b :: t => by
      rcases hab : a.id == b.id with _ | _
      · simp only [dedupKeepLast, hab, Bool.false_eq_true, if_false]
        obtain ⟨d, ds, heq, hid⟩ := dedupKeepLast_head_id t b
        rw [heq]
        rw [List.chain'_cons']
        constructor
        · intro y hy
          simp only [List.head?_cons, Option.mem_def, Option.some.injEq] at hy
          subst hy
          rw [hid]
          rw [beq_eq_false_iff_ne] at hab
          exact hab
        · rw [← heq]
          exact dedupKeepLast_chain' (b :: t)
      · simp only [dedupKeepLast, hab, if_true]
        exact dedupKeepLast_chain' (b :: t)

theorem dedupKeepLast_sublist : ∀ l : List Contact,
    (dedupKeepLast l).Sublist l
  | [] => List.Sublist.refl _
  | [c] => List.Sublist.refl _
  | a :: b :: t => by
      rcases hab : a.id == b.id with _ | _
      · simp only [dedupKeepLast, hab, Bool.false_eq_true, if_false]
        exact (dedupKeepLast_sublist (b :: t)).cons₂ a
      · simp only [dedupKeepLast, hab, if_true]
        exact (dedupKeepLast_sublist (b :: t)).cons a

theorem dedupKeepLast_filter : ∀ l : List Contact,
    dedupKeepLast l = (pairWithNext l).filterMap keepIfNextDiffers
  | [] => rfl
  | [c] => rfl
  | a :: b :: t => by
      rcases hab : a.id == b.id with _ | _
      · simp only [dedupKeepLast, pairWithNext, hab, Bool.false_eq_true,
          if_false, List.filterMap_cons]
        simp only [keepIfNextDiffers, hab, Bool.false_eq_true, if_false]
        rw [dedupKeepLast_filter (b :: t)]
      · simp only [dedupKeepLast, pairWithNext, hab, if_true,
          List.filterMap_cons]
        simp only [keepIfNextDiffers, hab, if_true]
        rw [dedupKeepLast_filter (b :: t)]

/-- Claim C10: `RemoveDuplicateContacts` leaves no two consecutive
contacts with equal IDs; the result is a sublist of the input (every
retained element occurs in the input, in the input's relative order);
and an element is retained precisely when it is not immediately
followed by an equal-ID element, i.e. the last element of every run of
consecutive equal-ID contacts is the one retained. -/
theorem c10_remove_duplicate_contacts (l : List Contact) :
    List.Chain' (fun a b => a.id ≠ b.id) (RemoveDuplicateContacts l) ∧
      (RemoveDuplicateContacts l).Sublist l ∧
      RemoveDuplicateContacts l =
        (pairWithNext l).filterMap keepIfNextDiffers := by
  rw [removeDuplicates_eq_dedupKeepLast]
  exact ⟨dedupKeepLast_chain' l, dedupKeepLast_sublist l,
    dedupKeepLast_filter l⟩

theorem tableLookup_eq_none_of_not_mem_keys {tbl : Table} {id : ID}
    (h : id ∉ tbl.map Prod.fst) : tableLookup tbl id = none := by
  unfold tableLookup
  rw [Option.map_eq_none']
  rw [List.find?_eq_none]
  intro p hp hpid
  rw [beq_iff_eq] at hpid
  exact h (hpid ▸ List.mem_map_of_mem Prod.fst hp)

theorem tableLookup_eraseP_self : ∀ (tbl : Table) (id : ID),
    (tbl.map Prod.fst).Nodup →
    tableLookup (tbl.eraseP (fun p => p.1 == id)) id = none
  | [], _, _ => rfl
  | (k, v) :: rest, id, hnd => by
      rw [List.map_cons, List.nodup_cons] at hnd
      obtain ⟨hk, hrest⟩ := hnd
      rcases hkid : (k == id) with _ | _
      · rw [List.eraseP_cons, hkid]
        simp only [cond_false]
        unfold tableLookup
        rw [List.find?_cons, hkid]
        exact tableLookup_eraseP_self rest id hrest
      · rw [List.eraseP_cons, hkid]
        simp only [cond_true]
        rw [beq_iff_eq] at hkid
        subst hkid
        exact tableLookup_eq_none_of_not_mem_keys hk

theorem tableDropChan_absent {tbl : Table} {id : ID}
    (h : tableLookup tbl id = none) : tableDropChan tbl id = tbl := by
  unfold tableDropChan
  unfold tableLookup at h
  rw [Option.map_eq_none', List.find?_eq_none] at h
  exact List.eraseP_of_forall_not h

theorem tableLookup_cons_self (tbl : Table) (id : ID) (ch : Chan) :
    tableLookup ((id, ch) :: tbl) id = some ch := by
  unfold tableLookup
  rw [List.find?_cons]
  simp

/-- Claim C7: `table.Add` fails with the id-in-use error and leaves the
table unchanged when the id is already registered; otherwise it inserts
the fresh channel under the id, returns it, and the keys of the
resulting table remain pairwise distinct (at most one entry per id). -/
theorem c7_table_add_register (tbl : Table) (id : ID) (fresh : Chan)
    (hnd : (tbl.map Prod.fst).Nodup) :
    (∀ ch, tableLookup tbl id = some ch →
        tableAdd tbl id fresh = (fresh, some "RPC id in use", tbl)) ∧
      (tableLookup tbl id = none →
        tableAdd tbl id fresh = (fresh, none, (id, fresh) :: tbl) ∧
          tableLookup ((id, fresh) :: tbl) id = some fresh ∧
          (((id, fresh) :: tbl).map Prod.fst).Nodup) := by
  constructor
  · intro ch hch
    unfold tableAdd
    rw [hch]
  · intro hnone
    refine ⟨?_, tableLookup_cons_self tbl id fresh, ?_⟩
    · unfold tableAdd
      rw [hnone]
    · rw [List.map_cons, List.nodup_cons]
      refine ⟨?_, hnd⟩
      intro hmem
      obtain ⟨p, hp, hpid⟩ := List.mem_map.mp hmem
      have hall : ∀ q ∈ tbl, ¬ ((fun p => p.1 == id) q = true) := by
        unfold tableLookup at hnone
        rw [Option.map_eq_none', List.find?_eq_none] at hnone
        exact hnone
      exact hall p hp (by rw [beq_iff_eq]; exact hpid)

/-- Witness for C7 at a concrete table: the id `⟨1,0,0,0,0⟩` is
registered with channel 7, so re-registering it fails and leaves the
table unchanged. -/
theorem c7_table_add_register_witness :
    (([(ID.mk 1 0 0 0 0, 7)] : Table).map Prod.fst).Nodup ∧
      tableAdd [(ID.mk 1 0 0 0 0, 7)] (ID.mk 1 0 0 0 0) 9 =
        (9, some "RPC id in use", [(ID.mk 1 0 0 0 0, 7)]) :=
  ⟨by decide,
    (c7_table_add_register [(ID.mk 1 0 0 0 0, 7)] (ID.mk 1 0 0 0 0) 9
      (by decide)).1 7 (by decide)⟩

/-- Claim C6: a successful delivery (`Network.route` of a response frame
whose id is pending) removes the id from the pending table, so the id is
absent afterwards and a second delivery of the same id fails with the
no-matching-id outcome, discarding the frame; and `DropChan`
(cancellation) of an absent id leaves the table unchanged. -/
theorem c6_deliver_at_most_once (tbl : Table) (rpc : RPC)
    (hnd : (tbl.map Prod.fst).Nodup) (hresp : rpc.response = true) :
    (∀ tbl' ch, networkRoute tbl rpc = (tbl', RouteAction.delivered ch rpc) →
        tableLookup tbl' rpc.id = none ∧
          networkRoute tbl' rpc = (tbl', RouteAction.droppedNoMatch)) ∧
      (tableLookup tbl rpc.id = none → tableDropChan tbl rpc.id = tbl) := by
  constructor
  · intro tbl' ch hroute
    rcases hlook : tableLookup tbl rpc.id with _ | ch0
    · have hnr : networkRoute tbl rpc = (tbl, RouteAction.droppedNoMatch) := by
        unfold networkRoute tableRetrieveChan
        rw [hresp, hlook]
        simp
      rw [hnr] at hroute
      simp at hroute
    · have heq : tableRetrieveChan tbl rpc.id =
          (some ch0, tbl.eraseP (fun p => p.1 == rpc.id)) := by
        unfold tableRetrieveChan
        rw [hlook]
      have hE : tableLookup (tbl.eraseP (fun p => p.1 == rpc.id)) rpc.id =
          none := tableLookup_eraseP_self tbl rpc.id hnd
      have hdrop : tableDropChan (tbl.eraseP (fun p => p.1 == rpc.id)) rpc.id =
          tbl.eraseP (fun p => p.1 == rpc.id) := tableDropChan_absent hE
      have hnr : networkRoute tbl rpc =
          (tbl.eraseP (fun p => p.1 == rpc.id),
            RouteAction.delivered ch0 rpc) := by
        unfold networkRoute
        rw [hresp, heq]
        simp [hdrop]
      rw [hnr] at hroute
      have h1 := congrArg Prod.fst hroute
      have h2 := congrArg Prod.snd hroute
      simp only [Prod.fst, Prod.snd] at h1 h2
      subst h1
      refine ⟨hE, ?_⟩
      unfold networkRoute tableRetrieveChan
      rw [hresp, hE]
      simp
  · exact tableDropChan_absent

/-- Witness for C6 at a concrete table holding id `⟨1,0,0,0,0⟩` with
channel 7: after its delivery the table is empty, the id absent, and a
repeated delivery is discarded with no match. -/
theorem c6_deliver_at_most_once_witness :
    (([(ID.mk 1 0 0 0 0, 7)] : Table).map Prod.fst).Nodup ∧
      (RPC.mk (ID.mk 1 0 0 0 0) Cmd.PING true
          (Contact.mk (IP.mk 1 2 3 4) (ID.mk 9 0 0 0 0)) (IP.mk 1 2 3 4)
          (ID.mk 0 0 0 0 0) [] false).response = true ∧
      (tableLookup [] (ID.mk 1 0 0 0 0) = none ∧
        networkRoute []
          (RPC.mk (ID.mk 1 0 0 0 0) Cmd.PING true
            (Contact.mk (IP.mk 1 2 3 4) (ID.mk 9 0 0 0 0)) (IP.mk 1 2 3 4)
            (ID.mk 0 0 0 0 0) [] false) =
          ([], RouteAction.droppedNoMatch)) :=
  ⟨by decide, rfl,
    (c6_deliver_at_most_once [(ID.mk 1 0 0 0 0, 7)]
      (RPC.mk (ID.mk 1 0 0 0 0) Cmd.PING true
        (Contact.mk (IP.mk 1 2 3 4) (ID.mk 9 0 0 0 0)) (IP.mk 1 2 3 4)
        (ID.mk 0 0 0 0 0) [] false)
      (by decide) rfl).1 [] 7 (by decide)⟩

/-- Claim C1 (code-bug evaluation): for a request frame whose response
never arrives (environment posts nothing on any waiter channel),
`Network.Send` registers the waiter, emits the frame, and then blocks
forever — no `Timeout` error is ever produced, because the
`select`/`TIMEOUT` path is commented out.  Moreover when the freshly
rolled id collides with a pending entry, the `IdInUse` error from `Add`
is discarded: `Send` does not re-roll the id but emits the frame under
the colliding id and blocks on a channel that is not registered in the
table. -/
theorem c1_send_never_times_out :
    networkSend [] reqFrame (ID.mk 5 0 0 0 0) 3 (fun _ => none) =
      ([(ID.mk 5 0 0 0 0, 3)], some { reqFrame with id := ID.mk 5 0 0 0 0 },
        SendResult.blocked) ∧
      networkSend [(ID.mk 5 0 0 0 0, 7)] reqFrame (ID.mk 5 0 0 0 0) 3
          (fun _ => none) =
        ([(ID.mk 5 0 0 0 0, 7)], some { reqFrame with id := ID.mk 5 0 0 0 0 },
          SendResult.blocked) := by
  constructor <;> rfl

/-- Counterexample to claim C2 as stated: four distinct already-sorted
contacts survive sort + dedup intact (length 4, below K = 5, so the
claimed rule would keep all four), yet the loop truncates them to 3 —
the code truncates to `REPLICATION = 3` whenever the list exceeds
`CONCURRENCY = 3`, not to `K = 5`. -/
theorem c2_counterexample :
    (RemoveDuplicateContacts (SortContactsByDistance
        [cNear, Contact.mk (IP.mk 3 3 3 3) (ID.mk 0 0 0 0 2),
          Contact.mk (IP.mk 4 4 4 4) (ID.mk 0 0 0 0 3), cFar]
        target0)).length = 4 ∧
      (processContacts
        [cNear, Contact.mk (IP.mk 3 3 3 3) (ID.mk 0 0 0 0 2),
          Contact.mk (IP.mk 4 4 4 4) (ID.mk 0 0 0 0 3), cFar]
        target0).length = 3 := by
  constructor <;> rfl

/-- Claim C2 (amended): in every iteration, after merging, sorting and
deduplicating the replies, the candidate list is truncated to at most
`REPLICATION = 3` contacts whenever it exceeds `CONCURRENCY = 3`; the
processed list therefore never exceeds 3 contacts (the bound `K = 5`
plays no part in the loop). -/
theorem c2_truncates_to_replication (l : List Contact) (t : ID) :
    ((RemoveDuplicateContacts (SortContactsByDistance l t)).length >
        CONCURRENCY →
      processContacts l t =
        (RemoveDuplicateContacts (SortContactsByDistance l t)).take
          REPLICATION) ∧
      (processContacts l t).length ≤ REPLICATION := by
  constructor
  · intro hgt
    simp only [processContacts]
    simp only [hgt, if_true]
  · by_cases h :
      (RemoveDuplicateContacts (SortContactsByDistance l t)).length >
        CONCURRENCY
    · simp only [processContacts, h, if_true, List.length_take]
      simp [REPLICATION]
    · simp only [processContacts, h, if_false]
      simp only [CONCURRENCY, Nat.not_lt] at h
      simpa [REPLICATION] using h

/-- Witness for C2 (amended) on five distinct contacts: the processed
list is the 3-element truncation. -/
theorem c2_truncates_to_replication_witness :
    (RemoveDuplicateContacts (SortContactsByDistance
        [cNear, Contact.mk (IP.mk 3 3 3 3) (ID.mk 0 0 0 0 2),
          Contact.mk (IP.mk 4 4 4 4) (ID.mk 0 0 0 0 3), cFar,
          Contact.mk (IP.mk 5 5 5 5) (ID.mk 0 0 0 0 6)]
        target0)).length > CONCURRENCY ∧
      processContacts
          [cNear, Contact.mk (IP.mk 3 3 3 3) (ID.mk 0 0 0 0 2),
            Contact.mk (IP.mk 4 4 4 4) (ID.mk 0 0 0 0 3), cFar,
            Contact.mk (IP.mk 5 5 5 5) (ID.mk 0 0 0 0 6)]
          target0 =
        (RemoveDuplicateContacts (SortContactsByDistance
          [cNear, Contact.mk (IP.mk 3 3 3 3) (ID.mk 0 0 0 0 2),
            Contact.mk (IP.mk 4 4 4 4) (ID.mk 0 0 0 0 3), cFar,
            Contact.mk (IP.mk 5 5 5 5) (ID.mk 0 0 0 0 6)]
          target0)).take REPLICATION :=
  ⟨by decide,
    (c2_truncates_to_replication
      [cNear, Contact.mk (IP.mk 3 3 3 3) (ID.mk 0 0 0 0 2),
        Contact.mk (IP.mk 4 4 4 4) (ID.mk 0 0 0 0 3), cFar,
        Contact.mk (IP.mk 5 5 5 5) (ID.mk 0 0 0 0 6)]
      target0).1 (by decide)⟩

/-- Counterexample to claim C3 as stated: with previous shortlist
`[cNear]` (distance 1 to the target) and a reply containing only `cFar`
(distance 5), the iteration terminates and returns `[cFar]` — a list
headed by a contact strictly farther from the target than the head of
the last shortlist, so the closest distance is not non-increasing
across the final iteration. -/
theorem c3_counterexample :
    findNodeStep [cNear] [cFar] target0 = LoopDecision.terminate [cFar] ∧
      CloserNode cNear.id cFar.id target0 = true := by
  constructor <;> rfl

/-- Claim C3 (amended): the closest distance strictly decreases on every
iteration the loop *continues* through — whenever `findNodeLoop` decides
to run another iteration with a non-empty previous shortlist, the head
of the new candidate list is strictly closer to the target than the
previous head (which is why the loop terminates); but the list returned
at termination may be headed by a contact no closer, or even farther,
than the head of the last shortlist. -/
theorem c3_head_strictly_closer_on_continue (prev replies : List Contact)
    (t : ID) (next : List Contact)
    (h : findNodeStep prev replies t = LoopDecision.again next) :
    next ≠ [] ∧
      (prev = [] ∨ ∃ c p, next.head? = some c ∧ prev.head? = some p ∧
        CloserNode c.id p.id t = true) := by
  unfold findNodeStep at h
  rcases hc : (processContacts replies t).head? with _ | c <;>
    rcases hp : prev.head? with _ | p <;>
    rw [hc, hp] at h
  · simp at h
  · simp at h
  · simp only [LoopDecision.again.injEq] at h
    subst h
    refine ⟨?_, Or.inl (List.head?_eq_none_iff.mp hp)⟩
    intro hnil
    rw [hnil] at hc
    simp at hc
  · rcases hcl : CloserNode c.id p.id t with _ | _
    · simp [hcl] at h
    · simp only [hcl, if_true, LoopDecision.again.injEq] at h
      subst h
      refine ⟨?_, Or.inr ⟨c, p, hc, rfl, hcl⟩⟩
      intro hnil
      rw [hnil] at hc
      simp at hc

/-- Witness for C3 (amended): previous shortlist `[cFar]`, reply
`[cNear]` — the loop continues and the new head `cNear` is strictly
closer. -/
theorem c3_head_strictly_closer_on_continue_witness :
    findNodeStep [cFar] [cNear] target0 = LoopDecision.again [cNear] ∧
      ([cNear] ≠ ([] : List Contact) ∧
        ([cFar] = ([] : List Contact) ∨
          ∃ c p, ([cNear] : List Contact).head? = some c ∧
            ([cFar] : List Contact).head? = some p ∧
            CloserNode c.id p.id target0 = true)) :=
  ⟨by decide,
    c3_head_strictly_closer_on_continue [cFar] [cNear] target0 [cNear]
      (by decide)⟩

/-- Claim C4 (code-bug evaluation): `FindAccount` discards the received
booleans (`_, ok := <-respChan` counts the channel-open flag, which is
always true) and compares the count of receives, one per close node,
with `REPLICATION`.  Hence with three close nodes whose queries all
fail it returns a nil error although no node confirmed holding the
record; while with queried nodes that do reply, the unconditional
second post of `findAccountQuery` (a missing early return) overruns the
`REPLICATION`-sized channel buffer and the function never returns: so
for three nodes all reporting `false` as well as for two nodes both
reporting `true`. -/
theorem c4_find_account_ignores_confirmations :
    FindAccount
        [cNear, Contact.mk (IP.mk 3 3 3 3) (ID.mk 0 0 0 0 2), cFar]
        [none, none, none] =
      some ([cNear, Contact.mk (IP.mk 3 3 3 3) (ID.mk 0 0 0 0 2), cFar],
        true) ∧
      FindAccount
          [cNear, Contact.mk (IP.mk 3 3 3 3) (ID.mk 0 0 0 0 2), cFar]
          [some replyNotHeld, some replyNotHeld, some replyNotHeld] = none ∧
      FindAccount [cNear, cFar] [some replyHeld, some replyHeld] = none := by
  refine ⟨rfl, rfl, rfl⟩

/-- Counterexample to claim C9 as stated: in the one-node case
`RandU32(0, 1)` does not return an error — `0 >= 1` is false, so it
returns index 0 with a nil error. -/
theorem c9_counterexample :
    RandU32 0 1 7 = (0, none) ∧
      randomNode [cNear] 7 = some cNear := by
  constructor <;> rfl

/-- Claim C9 (amended): whenever the registry holds at least one node,
`Simnet.randomNode` returns an element of the node list — the computed
index `rand % len` is always in bounds; in the one-node case
`RandU32(0, 1)` succeeds and the index is 0. -/
theorem c9_random_node_in_bounds (nodes : List Contact) (rand : Nat)
    (h : nodes ≠ []) :
    ∃ c, randomNode nodes rand = some c ∧ c ∈ nodes := by
  have hlen : 0 < nodes.length := List.length_pos.mpr h
  have hidx : (RandU32 0 nodes.length rand).1 = rand % nodes.length := by
    unfold RandU32
    rw [if_neg (by omega)]
    simp
  have hlt : rand % nodes.length < nodes.length := Nat.mod_lt _ hlen
  refine ⟨nodes[rand % nodes.length], ?_, List.getElem_mem _⟩
  unfold randomNode
  rw [hidx]
  exact List.getElem?_eq_getElem hlt

/-- Witness for C9 (amended) on a one-node registry. -/
theorem c9_random_node_in_bounds_witness :
    ([cNear] : List Contact) ≠ [] ∧
      ∃ c, randomNode [cNear] 12345 = some c ∧ c ∈ [cNear] :=
  ⟨by decide, c9_random_node_in_bounds [cNear] 12345 (by decide)⟩

/-- Claim C8: `Simnet.Route` drops a frame whose receiver has no
registered mailbox; and for an `ENTER` frame with a mailbox, before the
drop roll and delivery it replaces `foundNodes` with the two contacts
drawn by `randomNode` from the registry's node list and sets
`response = true` (the rewritten frame is then dropped or delivered
according to the drop roll). -/
theorem c8_route_drop_and_enter_rewrite (mailboxes : MailboxTable)
    (nodes : List Contact) (r1 r2 : Nat) (dropRoll : Bool) (rpc : RPC) :
    (mailboxLookup mailboxes rpc.receiver = none →
        simnetRoute mailboxes nodes r1 r2 dropRoll rpc =
          RouteResult.dropped) ∧
      (∀ ch, mailboxLookup mailboxes rpc.receiver = some ch →
        rpc.cmd = Cmd.ENTER →
        ∀ n1 n2, randomNode nodes r1 = some n1 →
          randomNode nodes r2 = some n2 →
          simnetRoute mailboxes nodes r1 r2 dropRoll rpc =
            if dropRoll then RouteResult.dropped
            else RouteResult.delivered ch
              { rpc with foundNodes := [n1, n2], response := true }) := by
  constructor
  · intro hnone
    unfold simnetRoute
    rw [hnone]
  · intro ch hch hcmd n1 n2 hn1 hn2
    unfold simnetRoute
    rw [hch]
    simp only [hcmd, beq_self_eq_true, if_true, hn1, hn2]

/-- Witness for C8: one mailbox, two registry nodes, an `ENTER` frame
and a non-firing drop roll — the frame is delivered rewritten with the
two sampled contacts and `response = true`. -/
theorem c8_route_drop_and_enter_rewrite_witness :
    mailboxLookup [(IP.mk 2 2 2 2, 4)] reqEnter.receiver = some 4 ∧
      reqEnter.cmd = Cmd.ENTER ∧
      randomNode [cNear, cFar] 0 = some cNear ∧
      randomNode [cNear, cFar] 1 = some cFar ∧
      simnetRoute [(IP.mk 2 2 2 2, 4)] [cNear, cFar] 0 1 false reqEnter =
        (if false then RouteResult.dropped
          else RouteResult.delivered 4
            { reqEnter with foundNodes := [cNear, cFar], response := true }) :=
  ⟨by decide, rfl, by decide, by decide,
    (c8_route_drop_and_enter_rewrite [(IP.mk 2 2 2 2, 4)] [cNear, cFar]
      0 1 false reqEnter).2 4 (by decide) rfl cNear cFar (by decide)
      (by decide)⟩
